import Mathlib

/-!
Verification of the flight-data-reader library: a configuration-driven
binary telemetry decoder (`src/data.rs`), a row-assembly engine
(`src/result_table.rs`), a CSV renderer (`src/csv.rs`) and the
configuration model (`src/configuration.rs`).

The Rust code is shallowly embedded: byte streams are lists of natural
numbers below 256, the `Value` union is its raw bit pattern (a natural
number whose width is determined by the `ValueKind` used to access it,
exactly as the union's storage is), iterators become functions from the
remaining input to a step result plus the rest of the input, and the
possibility of a Rust panic (`unwrap` of an `Err`) is an explicit
constructor of the step-result type.
-/

namespace FlightData

/-- The type of a single scalar value (`ValueKind` in `configuration.rs`). -/
inductive ValueKind where
  | int8
  | int16
  | int32
  | int64
  | uint8
  | uint16
  | uint32
  | uint64
  | float32
  | float64
deriving DecidableEq, Repr

/-- The fixed byte width of each kind, as read by `PacketParser::read_value`
(`data.rs` lines 158-221: the size of the buffer passed to `read_exact`). -/
def ValueKind.width : ValueKind → Nat
  | .int8 => 1
  | .int16 => 2
  | .int32 => 4
  | .int64 => 8
  | .uint8 => 1
  | .uint16 => 2
  | .uint32 => 4
  | .uint64 => 8
  | .float32 => 4
  | .float64 => 8

/-- A single value (`ValueConfig` in `configuration.rs`). -/
structure ValueConfig where
  name : String
  data_type : ValueKind
deriving DecidableEq, Repr

/-- Configuration for data from a sensor (`SensorConfig` in
`configuration.rs`). `id` is a `u8`, embedded as a natural number. -/
structure SensorConfig where
  name : String
  id : Nat
  values : List ValueConfig
deriving DecidableEq, Repr

/-- The endianess of all values in the binary file (`Endianess` in
`configuration.rs`). -/
inductive Endianess where
  | Little
  | Big
deriving DecidableEq, Repr

/-- `Endianess::is_big` (`configuration.rs` line 95). -/
def Endianess.is_big : Endianess → Bool
  | .Big => true
  | .Little => false

/-- Configuration for a single rocket (`RocketConfig` in `configuration.rs`). -/
structure RocketConfig where
  name : String
  sensors : List SensorConfig
  endianess : Endianess
  display_name : Option String
  description : Option String
deriving DecidableEq, Repr

/-- The loop body of `RocketConfig::validate` (`configuration.rs` lines
136-148): walk the sensors keeping the set of IDs seen so far, failing at the
first sensor whose ID was already seen.  The `HashSet<u8>` is embedded as the
list of IDs inserted so far; `contains`/`insert` keep the same meaning. -/
def validateLoop : List SensorConfig → List Nat → Except String Unit
  | [], _ => .ok ()
  | s :: rest, ids =>
    if ids.contains s.id then
      .error ("Multiple sensors with ID: " ++ toString s.id)
    else
      validateLoop rest (s.id :: ids)

/-- `RocketConfig::validate` (`configuration.rs` lines 136-148). -/
def RocketConfig.validate (c : RocketConfig) : Except String Unit :=
  validateLoop c.sensors []

/-- `RocketConfig::get_sensor_by_id` (`configuration.rs` lines 160-163). -/
def RocketConfig.get_sensor_by_id (c : RocketConfig) (id : Nat) :
    Option SensorConfig :=
  c.sensors.find? (fun sensor => sensor.id == id)

/-- The loop succeeds exactly when the sensor IDs are nodup and also avoid the
already-seen set. -/
theorem validateLoop_ok_iff (ss : List SensorConfig) (ids : List Nat) :
    validateLoop ss ids = .ok () ↔
      (ss.map (·.id)).Nodup ∧ ∀ s ∈ ss, s.id ∉ ids := by
  induction ss generalizing ids with
  | nil => simp [validateLoop]
  | cons s rest ih =>
    by_cases hmem : s.id ∈ ids
    · have hc : ids.contains s.id = true := by simpa using hmem
      simp only [validateLoop, hc, if_true]
      constructor
      · intro h; cases h
      · rintro ⟨-, hall⟩
        exact absurd hmem (hall s (by simp))
    · have hc : ids.contains s.id = false := by simpa using hmem
      simp only [validateLoop, hc, Bool.false_eq_true, if_false, ih]
      constructor
      · rintro ⟨hnodup, hall⟩
        refine ⟨?_, ?_⟩
        · simp only [List.map_cons, List.nodup_cons]
          refine ⟨?_, hnodup⟩
          intro hin
          obtain ⟨t, ht, hid⟩ := List.mem_map.mp hin
          exact (hall t ht) (by simp [← hid])
        · intro t ht
          rcases List.mem_cons.mp ht with h | h
          · subst h; exact hmem
          · intro hcontra
            exact (hall t h) (by simp [hcontra])
      · rintro ⟨hnodup, hall⟩
        simp only [List.map_cons, List.nodup_cons] at hnodup
        refine ⟨hnodup.2, ?_⟩
        intro t ht
        simp only [List.mem_cons]
        rintro (h | h)
        · exact hnodup.1 (List.mem_map.mpr ⟨t, ht, h⟩)
        · exact (hall t (by simp [ht])) h

/-- C8: `RocketConfig::validate` succeeds exactly when the sensor IDs are
pairwise distinct; it returns an error exactly when two sensors share an ID
(the duplicate-sensor-ID condition). -/
theorem validate_ok_iff_nodup_ids (c : RocketConfig) :
    (c.validate = .ok () ↔ (c.sensors.map (·.id)).Nodup) ∧
      ((∃ msg, c.validate = .error msg) ↔
        ¬ (c.sensors.map (·.id)).Nodup) := by
  have h : c.validate = .ok () ↔ (c.sensors.map (·.id)).Nodup := by
    rw [RocketConfig.validate, validateLoop_ok_iff]
    simp
  refine ⟨h, ?_, ?_⟩
  · rintro ⟨msg, hmsg⟩ hn
    rw [h.mpr hn] at hmsg
    cases hmsg
  · intro hn
    cases hv : c.validate with
    | error msg => exact ⟨msg, rfl⟩
    | ok u => cases u; exact absurd (h.mp hv) hn

/-! ## The binary codec (`data.rs`)

A byte stream is a `List Nat` whose members are below 256 (`u8`).  The
`BufReader` cursor of `PacketParser` is the remaining list; `read_exact`
succeeds exactly when enough bytes remain.  The Rust `Value` union is its raw
bit pattern: a natural number whose width is given by the `ValueKind` under
which it is accessed, just as the union's raw storage is only meaningful
together with the kind recorded in the configuration. -/

/-- Raw bit pattern of the `Value` union in `data.rs`.  Constructing
`Value { int_32: x }` stores the 32 bits of `x`; reading `.int_32` interprets
them back.  Both directions are the identity on the bit pattern, so the union
is embedded as the pattern itself. -/
abbrev Value := Nat

/-- A safe wrapper around a value that knows its type (`TypedValue` in
`data.rs`). -/
structure TypedValue where
  value : Value
  value_kind : ValueKind
deriving DecidableEq, Repr

/-- `u{N}::from_be_bytes`: big-endian interpretation of a byte list. -/
def fromBeBytes (bs : List Nat) : Nat :=
  bs.foldl (fun acc b => acc * 256 + b) 0

/-- `u{N}::from_le_bytes`: little-endian interpretation of a byte list. -/
def fromLeBytes (bs : List Nat) : Nat :=
  fromBeBytes bs.reverse

/-- `reader.read_exact(&mut buf)` for a buffer of `n` bytes: succeeds exactly
when `n` bytes remain, consuming them. -/
def readExact (n : Nat) (bytes : List Nat) : Option (List Nat × List Nat) :=
  if n ≤ bytes.length then some (bytes.take n, bytes.drop n) else none

/-- One arm of `PacketParser::read_value`: read exactly `w` bytes and convert
them with the `from_le_or_be_bytes!` macro (`data.rs` lines 123-131), i.e.
`from_be_bytes` when the configured endianess is big and `from_le_bytes`
otherwise.  All ten arms store the resulting bit pattern into the union. -/
def readScalar (e : Endianess) (w : Nat) (bytes : List Nat) :
    Option (Nat × List Nat) :=
  match readExact w bytes with
  | none => none
  | some (buf, rest) =>
      some (if e.is_big then fromBeBytes buf else fromLeBytes buf, rest)

/-- `PacketParser::read_value` (`data.rs` lines 158-221): ten arms, one per
`ValueKind`, each reading the kind's fixed byte width.  (The `UInt8` arm of
the source takes `value[0]` directly, which coincides with `readScalar` at
width 1.) -/
def read_value (e : Endianess) (value_config : ValueConfig)
    (bytes : List Nat) : Option (Value × List Nat) :=
  match value_config.data_type with
  | .int8 => readScalar e 1 bytes
  | .int16 => readScalar e 2 bytes
  | .int32 => readScalar e 4 bytes
  | .int64 => readScalar e 8 bytes
  | .uint8 => readScalar e 1 bytes
  | .uint16 => readScalar e 2 bytes
  | .uint32 => readScalar e 4 bytes
  | .uint64 => readScalar e 8 bytes
  | .float32 => readScalar e 4 bytes
  | .float64 => readScalar e 8 bytes

/-- Modelled from the spec: the repository contains no encoder, but §8 of the
specification demands that "re-encoding the decoded bits with the same byte
order reproduces the original bytes".  `toBeBytes w v` is the big-endian
`w`-byte encoding of the bit pattern `v` (Rust's `to_be_bytes`). -/
def toBeBytes : Nat → Nat → List Nat
  | 0, _ => []
  | w + 1, v => toBeBytes w (v / 256) ++ [v % 256]

/-- Modelled from the spec: encode one scalar of width `w` with the given byte
order (`to_be_bytes` / `to_le_bytes`). -/
def encodeScalar (e : Endianess) (w : Nat) (v : Nat) : List Nat :=
  if e.is_big then toBeBytes w v else (toBeBytes w v).reverse

/-- Modelled from the spec: re-encode a decoded value of the given kind with
the configured byte order. -/
def encode_value (e : Endianess) (kind : ValueKind) (v : Value) : List Nat :=
  encodeScalar e kind.width v

/-- A single reading of a sensor (`Packet` in `data.rs`). -/
structure Packet where
  id : Nat
  values : List Value
deriving DecidableEq, Repr

/-- An error that occurs while parsing a packet (`PacketError` in `data.rs`).
The enum has exactly these two variants; there is no truncation variant. -/
inductive PacketError where
  | invalidId (id : Nat)
  | invalidValueCount (actual expected : Nat)
deriving DecidableEq, Repr

/-- Result of one `PacketParser::next` call.  `eos` is the iterator returning
`None`; `fail`/`ok` are `Some(Err _)`/`Some(Ok _)` together with the bytes
still unread; `panicked` is the process aborting, which the source does by
calling `.unwrap()` on the `io::Result` of `read_value` (`data.rs` line
275). -/
inductive ParseStep where
  | eos
  | fail (e : PacketError) (rest : List Nat)
  | ok (p : Packet) (rest : List Nat)
  | panicked
deriving DecidableEq, Repr

/-- The value-reading loop of `PacketParser::next` (`data.rs` lines 271-282):
one `read_value` per configured value, in declared order.  A failed read is
reported to the caller of the loop (the source instead unwraps it there). -/
def readValues (e : Endianess) :
    List ValueConfig → List Nat → Option (List Value × List Nat)
  | [], bytes => some ([], bytes)
  | vc :: vcs, bytes =>
    match read_value e vc bytes with
    | none => none
    | some (v, rest) =>
      match readValues e vcs rest with
      | none => none
      | some (vs, rest') => some (v :: vs, rest')

/-- `<PacketParser as Iterator>::next` (`data.rs` lines 257-285): read one ID
byte (end of stream ends the iterator), look the sensor up, then read its
declared values; a mid-value read failure is unwrapped, i.e. a panic. -/
def PacketParser.next (config : RocketConfig) (bytes : List Nat) : ParseStep :=
  match bytes with
  | [] => .eos
  | id :: rest =>
    match config.get_sensor_by_id id with
    | none => .fail (.invalidId id) rest
    | some sensor_config =>
      match readValues config.endianess sensor_config.values rest with
      | none => .panicked
      | some (values, rest') => .ok ⟨id, values⟩ rest'

theorem fromBeBytes_append_singleton (bs : List Nat) (b : Nat) :
    fromBeBytes (bs ++ [b]) = fromBeBytes bs * 256 + b := by
  simp [fromBeBytes, List.foldl_append]

/-- Big-endian decode followed by big-endian encode is the identity on byte
lists whose members are bytes. -/
theorem toBeBytes_fromBeBytes (bs : List Nat) (hbs : ∀ b ∈ bs, b < 256) :
    toBeBytes bs.length (fromBeBytes bs) = bs := by
  induction bs using List.reverseRecOn with
  | nil => rfl
  | append_singleton bs b ih =>
    have hb : b < 256 := hbs b (by simp)
    have hbs' : ∀ x ∈ bs, x < 256 := fun x hx => hbs x (by simp [hx])
    rw [fromBeBytes_append_singleton]
    have hlen : (bs ++ [b]).length = bs.length + 1 := by simp
    rw [hlen, toBeBytes]
    have hdiv : (fromBeBytes bs * 256 + b) / 256 = fromBeBytes bs := by
      omega
    have hmod : (fromBeBytes bs * 256 + b) % 256 = b := by
      omega
    rw [hdiv, hmod, ih hbs']

/-- `readScalar` consumes exactly `w` bytes, and `encodeScalar` with the same
byte order reproduces them. -/
theorem readScalar_spec (e : Endianess) (w : Nat) (bytes : List Nat)
    (v : Nat) (rest : List Nat) (hbytes : ∀ b ∈ bytes, b < 256)
    (h : readScalar e w bytes = some (v, rest)) :
    bytes.length = w + rest.length ∧ bytes = encodeScalar e w v ++ rest := by
  unfold readScalar readExact at h
  by_cases hw : w ≤ bytes.length
  · rw [if_pos hw] at h
    simp only [Option.some.injEq, Prod.mk.injEq] at h
    obtain ⟨hv, hrest⟩ := h
    have htake : (bytes.take w).length = w := by
      simp [List.length_take, Nat.min_eq_left hw]
    have htakemem : ∀ b ∈ bytes.take w, b < 256 :=
      fun b hb => hbytes b (List.mem_of_mem_take hb)
    have henc : encodeScalar e w v = bytes.take w := by
      cases e with
      | Big =>
        simp only [Endianess.is_big, if_true] at hv
        rw [encodeScalar]
        simp only [Endianess.is_big, if_true]
        rw [← hv]
        calc toBeBytes w (fromBeBytes (bytes.take w))
            = toBeBytes ((bytes.take w).length)
                (fromBeBytes (bytes.take w)) := by rw [htake]
          _ = bytes.take w := toBeBytes_fromBeBytes _ htakemem
      | Little =>
        simp only [Endianess.is_big, Bool.false_eq_true, if_false] at hv
        rw [encodeScalar]
        simp only [Endianess.is_big, Bool.false_eq_true, if_false]
        rw [← hv, fromLeBytes]
        have hrevmem : ∀ b ∈ (bytes.take w).reverse, b < 256 :=
          fun b hb => htakemem b (List.mem_reverse.mp hb)
        have hkey : toBeBytes w (fromBeBytes (bytes.take w).reverse) =
            (bytes.take w).reverse := by
          calc toBeBytes w (fromBeBytes (bytes.take w).reverse)
              = toBeBytes ((bytes.take w).reverse.length)
                  (fromBeBytes (bytes.take w).reverse) := by
                rw [List.length_reverse, htake]
            _ = (bytes.take w).reverse := toBeBytes_fromBeBytes _ hrevmem
        rw [hkey, List.reverse_reverse]
    constructor
    · rw [← hrest, List.length_drop]
      omega
    · conv_lhs => rw [← List.take_append_drop w bytes]
      rw [henc, hrest]
  · rw [if_neg hw] at h
    cases h

/-- C3: for every `ValueKind` and both byte orders, decoding one value
consumes exactly `width(kind)` bytes from the cursor, and re-encoding the
decoded value with the same byte order reproduces the consumed bytes
bit-exactly.  The statement is at the level of raw bit patterns, so it covers
all ten kinds including every float bit pattern (NaN and infinities
included). -/
theorem read_value_roundTrip (e : Endianess) (vc : ValueConfig)
    (bytes : List Nat) (v : Value) (rest : List Nat)
    (hbytes : ∀ b ∈ bytes, b < 256)
    (h : read_value e vc bytes = some (v, rest)) :
    bytes.length = vc.data_type.width + rest.length ∧
      bytes = encode_value e vc.data_type v ++ rest := by
  cases hk : vc.data_type <;>
    rw [read_value, hk] at h <;>
    exact readScalar_spec e _ bytes v rest hbytes h

/-- Witness for C3 at a concrete input: decoding a big-endian `float32`
(the bit pattern of `1.0f32`) from a five-byte stream consumes four bytes and
re-encodes to the same bytes. -/
theorem read_value_roundTrip_witness :
    ([63, 128, 0, 0, 7] : List Nat).length =
        ValueKind.float32.width + ([7] : List Nat).length ∧
      ([63, 128, 0, 0, 7] : List Nat) =
        encode_value .Big .float32 1065353216 ++ [7] :=
  read_value_roundTrip .Big ⟨"x", .float32⟩ [63, 128, 0, 0, 7]
    1065353216 [7] (by decide) (by decide)

/-- C6: the packet sequence terminates cleanly (iterator returns `None`)
exactly when the stream is exhausted at a sensor-ID boundary, i.e. when zero
bytes remain; no other input produces clean termination. -/
theorem parser_eos_iff_empty (config : RocketConfig) (bytes : List Nat) :
    PacketParser.next config bytes = .eos ↔ bytes = [] := by
  cases bytes with
  | nil => simp [PacketParser.next]
  | cons id rest =>
    constructor
    · intro h
      simp only [PacketParser.next] at h
      split at h
      · exact ParseStep.noConfusion h
      · split at h
        · exact ParseStep.noConfusion h
        · exact ParseStep.noConfusion h
    · intro h
      simp at h

/-- C7: a read sensor-ID byte with no matching sensor yields
`InvalidId` carrying that byte, and the cursor stands at the following byte,
so the next call decodes from there (the decoder does not crash). -/
theorem parser_invalid_id (config : RocketConfig) (id : Nat)
    (rest : List Nat) (h : config.get_sensor_by_id id = none) :
    PacketParser.next config (id :: rest) = .fail (.invalidId id) rest := by
  simp [PacketParser.next, h]

/-- Witness for C7: a configuration with no sensors rejects ID 5 and leaves
the two following bytes unread. -/
theorem parser_invalid_id_witness :
    (RocketConfig.mk "r" [] .Big none none).get_sensor_by_id 5 = none ∧
      PacketParser.next (RocketConfig.mk "r" [] .Big none none) [5, 1, 2] =
        .fail (.invalidId 5) [1, 2] :=
  ⟨by decide, parser_invalid_id (RocketConfig.mk "r" [] .Big none none) 5
    [1, 2] (by decide)⟩

/-- The configuration used for the truncation counterexample: one sensor with
ID 1 carrying a single `float32` value. -/
def truncCfg : RocketConfig :=
  ⟨"trunc", [⟨"accel", 1, [⟨"x", .float32⟩]⟩], .Big, none, none⟩

/-- C1: the code does NOT return an explicit decode error when the stream runs
out mid-value after a successfully read ID byte — it panics.  `data.rs` line
275 unwraps the `io::Result` of `read_value`, and `PacketError` has no
truncation variant at all.  On the stream `[1, 63]` (valid ID 1, then one byte
of a four-byte `float32`), the step is a panic and is not any error value. -/
theorem truncated_mid_value_panics :
    PacketParser.next truncCfg [1, 63] = .panicked ∧
      ∀ e rest, PacketParser.next truncCfg [1, 63] ≠ ParseStep.fail e rest := by
  have h : PacketParser.next truncCfg [1, 63] = .panicked := by rfl
  exact ⟨h, fun e rest hc => by rw [h] at hc; cases hc⟩

/-! ## Value rendering (`Value::to_string`, `data.rs` lines 80-93)

Rust renders integers with `to_string` (plain decimal, a leading `-` for
negative values) and floats with `format!("{:.8}", _)` (fixed eight decimal
places, correctly rounded with ties to even, `inf`/`-inf`/`NaN` for the
non-finite values).  Both are reproduced here on the raw bit patterns. -/

/-- The character of a single decimal digit. -/
def digitChar (d : Nat) : Char := Char.ofNat (48 + d % 10)

/-- Decimal digits of a natural number, most significant first.  The fuel is
an upper bound on the number of digits; `n + 1` always suffices. -/
def natDigitsAux : Nat → Nat → List Char
  | 0, _ => []
  | fuel + 1, n =>
    if n < 10 then [digitChar n]
    else natDigitsAux fuel (n / 10) ++ [digitChar (n % 10)]

/-- Rust `u64::to_string` (and the other unsigned widths): plain decimal. -/
def natRepr (n : Nat) : String := ⟨natDigitsAux (n + 1) n⟩

/-- Rust `i64::to_string` (and the other signed widths): plain decimal with a
leading minus sign for negative values. -/
def intRepr (i : Int) : String :=
  if i < 0 then "-" ++ natRepr i.natAbs else natRepr i.natAbs

/-- Reading a signed union arm: interpret the low `w` bits as a two's
complement integer. -/
def twosComplement (w : Nat) (v : Nat) : Int :=
  let m := v % 2 ^ w
  if m < 2 ^ (w - 1) then (m : Int) else (m : Int) - 2 ^ w

/-- Division rounding ties to even, as Rust float formatting does. -/
def halfEvenDiv (x d : Nat) : Nat :=
  let q := x / d
  let r := x % d
  if 2 * r < d then q
  else if d < 2 * r then q + 1
  else if q % 2 = 0 then q else q + 1

/-- Zero-pad a fraction to eight digits. -/
def pad8 (k : Nat) : String :=
  let s := natDigitsAux (k + 1) k
  ⟨List.replicate (8 - s.length) '0' ++ s⟩

/-- Rust `format!("{:.8}", f)` on an IEEE-754 value given by its bit pattern:
decompose into sign, biased exponent and fraction; non-finite values render as
`inf`, `-inf` or `NaN`; finite values are scaled by `10^8`, rounded ties to
even, and printed with exactly eight fraction digits (Rust formats the exact
binary value, so this is exact arithmetic on the significand). -/
def formatFloatFixed8 (expBits fracBits bias : Nat) (bits : Nat) : String :=
  let s := bits / 2 ^ (expBits + fracBits) % 2
  let e := bits / 2 ^ fracBits % 2 ^ expBits
  let frac := bits % 2 ^ fracBits
  if e = 2 ^ expBits - 1 then
    if frac = 0 then (if s = 1 then "-inf" else "inf") else "NaN"
  else
    let m := if e = 0 then frac else 2 ^ fracBits + frac
    let scale : Int :=
      (e : Int) - ((bias : Int) + fracBits) + (if e = 0 then 1 else 0)
    let n := if 0 ≤ scale then m * 10 ^ 8 * 2 ^ scale.toNat
             else halfEvenDiv (m * 10 ^ 8) (2 ^ (-scale).toNat)
    (if s = 1 then "-" else "") ++ natRepr (n / 10 ^ 8) ++ "." ++
      pad8 (n % 10 ^ 8)

/-- `Value::to_string` (`data.rs` lines 80-93): ten arms over the kind, each
reading the union under that kind (the low `width` bits of the pattern);
integers print as plain decimal, floats with eight fixed decimal places. -/
def Value.to_string (v : Value) (value_kind : ValueKind) : String :=
  match value_kind with
  | .int8 => intRepr (twosComplement 8 v)
  | .int16 => intRepr (twosComplement 16 v)
  | .int32 => intRepr (twosComplement 32 v)
  | .int64 => intRepr (twosComplement 64 v)
  | .uint8 => natRepr (v % 2 ^ 8)
  | .uint16 => natRepr (v % 2 ^ 16)
  | .uint32 => natRepr (v % 2 ^ 32)
  | .uint64 => natRepr (v % 2 ^ 64)
  | .float32 => formatFloatFixed8 8 23 127 (v % 2 ^ 32)
  | .float64 => formatFloatFixed8 11 52 1023 (v % 2 ^ 64)

/-! ## Column derivation (`result_table.rs` lines 58-84, `csv.rs` lines
33-47) -/

/-- `TableGenerator::column_name`: `format!("{}_{}", sensor.name, value.name)`. -/
def TableGenerator.column_name (sensor : SensorConfig)
    (value : ValueConfig) : String :=
  sensor.name ++ "_" ++ value.name

/-- `TableGenerator::columns`: push one name per (sensor, value) pair, sensors
in declared order, values within each sensor in declared order. -/
def TableGenerator.columns (config : RocketConfig) : List String :=
  config.sensors.foldl (fun result sensor =>
    sensor.values.foldl (fun result value =>
      result ++ [TableGenerator.column_name sensor value]) result) []

/-- `CsvGenerator::column_name` (`csv.rs` lines 33-35), textually the same
rule as the table generator's. -/
def CsvGenerator.column_name (sensor : SensorConfig)
    (value : ValueConfig) : String :=
  sensor.name ++ "_" ++ value.name

/-- `CsvGenerator::columns` (`csv.rs` lines 37-47). -/
def CsvGenerator.columns (config : RocketConfig) : List String :=
  config.sensors.foldl (fun result sensor =>
    sensor.values.foldl (fun result value =>
      result ++ [CsvGenerator.column_name sensor value]) result) []

theorem foldl_push_eq_append_map {α β : Type} (f : α → β) (xs : List α)
    (acc : List β) :
    xs.foldl (fun r x => r ++ [f x]) acc = acc ++ xs.map f := by
  induction xs generalizing acc with
  | nil => simp
  | cons x xs ih => simp [List.foldl_cons, ih]

theorem foldl_columns_eq (name : SensorConfig → ValueConfig → String)
    (sensors : List SensorConfig) (acc : List String) :
    sensors.foldl (fun result sensor =>
      sensor.values.foldl (fun result value =>
        result ++ [name sensor value]) result) acc =
    acc ++ sensors.flatMap (fun sensor => sensor.values.map (name sensor)) := by
  induction sensors generalizing acc with
  | nil => simp
  | cons sensor sensors ih =>
    rw [List.foldl_cons, ih, foldl_push_eq_append_map, List.flatMap_cons,
      List.append_assoc]

/-- The column list as the flat enumeration of (sensor, value) pairs. -/
theorem TableGenerator.columns_eq_flatMap (config : RocketConfig) :
    TableGenerator.columns config =
      config.sensors.flatMap (fun sensor =>
        sensor.values.map (fun value => sensor.name ++ "_" ++ value.name)) := by
  rw [TableGenerator.columns, foldl_columns_eq]
  rfl

/-- Same fact for the CSV generator's copy of the derivation. -/
theorem csvColumns_eq_flatMap (config : RocketConfig) :
    CsvGenerator.columns config =
      config.sensors.flatMap (fun sensor =>
        sensor.values.map (fun value => sensor.name ++ "_" ++ value.name)) := by
  rw [CsvGenerator.columns, foldl_columns_eq]
  rfl

/-- C9: the derived column list enumerates sensors in declared order and each
sensor's values in declared order, named `{sensor.name}_{value.name}`; the
derivation is a pure function of the configuration (so re-deriving it twice —
here: once in the table generator and once in the CSV generator, the two
copies in the source — yields identical sequences). -/
theorem columns_pure_and_ordered (config : RocketConfig) :
    TableGenerator.columns config =
        config.sensors.flatMap (fun sensor =>
          sensor.values.map (fun value =>
            sensor.name ++ "_" ++ value.name)) ∧
      CsvGenerator.columns config = TableGenerator.columns config := by
  refine ⟨TableGenerator.columns_eq_flatMap config, ?_⟩
  rw [TableGenerator.columns_eq_flatMap, csvColumns_eq_flatMap]

/-! ## The row-assembly engine (`result_table.rs`)

`TableGenerator` state is its lookahead buffer (`packet_buf`, a `Vec<Packet>`)
and the upstream iterator, embedded as the list of results it will yield.  The
`HashMap<String, TypedValue>` accumulator is an association list written at
the front; `insert` shadows (exactly the map's overwrite) and `contains_key`
is `lookup`-is-some.  The packet loop of `<TableGenerator as Iterator>::next`
is embedded with explicit fuel; every iteration of the loop removes one
element from `packet_buf ++ upstream` and re-adds at most the single deferred
packet before stopping, so `buf.length + pkts.length + 1` units of fuel are
more than the loop can ever use and the fuel-out branch is unreachable from
`TableGenerator.next`. -/

/-- `Result<Packet, PacketError>`, the item type of a source iterator. -/
abbrev PacketResult := Except PacketError Packet

/-- `TableGenerator::next_packet` (`result_table.rs` lines 105-111): use the
buffer (removing its first element) before pulling the upstream iterator.
Returns the drawn item together with the updated buffer and upstream. -/
def nextPacket (buf : List Packet) (pkts : List PacketResult) :
    Option (PacketResult × List Packet × List PacketResult) :=
  match buf with
  | [] =>
    match pkts with
    | [] => none
    | r :: pkts' => some (r, [], pkts')
  | b :: buf' => some (.ok b, buf', pkts)

/-- The insertion loop of `TableGenerator::next` (`result_table.rs` lines
154-158): push every (column name, typed value) pair of the packet into the
accumulator, zipping the sensor's value configs with the packet's values. -/
def insertPacket (sensor : SensorConfig) (p : Packet)
    (row : List (String × TypedValue)) : List (String × TypedValue) :=
  (sensor.values.zip p.values).foldl
    (fun r sv =>
      (TableGenerator.column_name sensor sv.1, ⟨sv.2, sv.1.data_type⟩) :: r)
    row

/-- The `'packet_loop` of `TableGenerator::next` (`result_table.rs` lines
120-159): draw a packet (buffer first), propagate upstream errors, resolve
the sensor (`InvalidId` if unknown), check the value count
(`InvalidValueCount` on mismatch), defer the packet to the buffer and stop if
any of its columns is already occupied, otherwise insert its values and keep
drawing.  Returns the final accumulator (or the early error) plus the buffer
and upstream left behind. -/
def tgLoop (config : RocketConfig) :
    Nat → List (String × TypedValue) → List Packet → List PacketResult →
      Except PacketError (List (String × TypedValue)) ×
        List Packet × List PacketResult
  | 0, row, buf, pkts => (.ok row, buf, pkts)
  | fuel + 1, row, buf, pkts =>
    match nextPacket buf pkts with
    | none => (.ok row, buf, pkts)
    | some (.error e, buf', pkts') => (.error e, buf', pkts')
    | some (.ok p, buf', pkts') =>
      match config.get_sensor_by_id p.id with
      | none => (.error (.invalidId p.id), buf', pkts')
      | some sensor =>
        if p.values.length ≠ sensor.values.length then
          (.error (.invalidValueCount p.values.length sensor.values.length),
            buf', pkts')
        else if sensor.values.any (fun spec =>
            (row.lookup (TableGenerator.column_name sensor spec)).isSome) then
          (.ok row, buf' ++ [p], pkts')
        else
          tgLoop config fuel (insertPacket sensor p row) buf' pkts'

/-- `<TableGenerator as Iterator>::next` (`result_table.rs` lines 117-177):
run the packet loop from an empty accumulator, return `None` on an empty row,
otherwise project the accumulator onto the fixed column list, absent columns
becoming `None` slots. -/
def TableGenerator.next (config : RocketConfig) (buf : List Packet)
    (pkts : List PacketResult) :
    Option (Except PacketError (List (Option TypedValue))) ×
      List Packet × List PacketResult :=
  match tgLoop config (buf.length + pkts.length + 1) [] buf pkts with
  | (.error e, buf', pkts') => (some (.error e), buf', pkts')
  | (.ok row, buf', pkts') =>
    if row.isEmpty then (none, buf', pkts')
    else
      (some (.ok ((TableGenerator.columns config).map
        (fun column => row.lookup column))), buf', pkts')

/-- The loop preserves "the lookahead buffer holds at most one packet". -/
theorem tgLoop_buf_le (config : RocketConfig) (fuel : Nat) :
    ∀ row buf pkts, buf.length ≤ 1 →
      (tgLoop config fuel row buf pkts).2.1.length ≤ 1 := by
  induction fuel with
  | zero => intro row buf pkts h; simpa [tgLoop] using h
  | succ fuel ih =>
    intro row buf pkts h
    cases buf with
    | cons b buf' =>
      have hb : buf' = [] := by simpa using h
      subst hb
      simp only [tgLoop, nextPacket]
      cases hs : config.get_sensor_by_id b.id with
      | none => simp [hs]
      | some sensor =>
        simp only [hs]
        split_ifs with h1 h2
        · simp
        · simp
        · exact ih _ [] pkts (by simp)
    | nil =>
      cases pkts with
      | nil => simp [tgLoop, nextPacket]
      | cons r pkts' =>
        cases r with
        | error e => simp [tgLoop, nextPacket]
        | ok p =>
          simp only [tgLoop, nextPacket]
          cases hs : config.get_sensor_by_id p.id with
          | none => simp [hs]
          | some sensor =>
            simp only [hs]
            split_ifs with h1 h2
            · simp
            · simp
            · exact ih _ [] pkts' (by simp)

/-- C4: the lookahead buffer (`packet_buf`) holds at most one packet: if it
holds at most one packet before a `next` call, it holds at most one after,
even though it is an unbounded `Vec` (and it starts empty at construction,
`result_table.rs` line 41). -/
theorem lookahead_buffer_at_most_one (config : RocketConfig)
    (buf : List Packet) (pkts : List PacketResult) (h : buf.length ≤ 1) :
    ((TableGenerator.next config buf pkts).2.1).length ≤ 1 := by
  have hloop := tgLoop_buf_le config (buf.length + pkts.length + 1) [] buf pkts h
  unfold TableGenerator.next
  rcases htg : tgLoop config (buf.length + pkts.length + 1) [] buf pkts with
    ⟨out, nb, np⟩
  rw [htg] at hloop
  cases out with
  | error e => simpa using hloop
  | ok row =>
    by_cases hemp : row.isEmpty <;> simp [hemp] <;> simpa using hloop

/-- Witness for C4 at a concrete state: one buffered packet, empty upstream. -/
theorem lookahead_buffer_at_most_one_witness :
    ([(⟨0, [30]⟩ : Packet)] : List Packet).length ≤ 1 ∧
      ((TableGenerator.next truncCfg [⟨0, [30]⟩] []).2.1).length ≤ 1 :=
  ⟨by decide, lookahead_buffer_at_most_one truncCfg [⟨0, [30]⟩] [] (by decide)⟩

/-- The sparse-row scenario configuration of the claim: two sensors `A` and
`B`, one `uint8` column each. -/
def abCfg : RocketConfig :=
  ⟨"ab", [⟨"A", 0, [⟨"a", .uint8⟩]⟩, ⟨"B", 1, [⟨"b", .uint8⟩]⟩], .Big, none,
    none⟩

/-- Packet order [A, B, A] with values 10, 20, 30. -/
def abPkts : List PacketResult := [.ok ⟨0, [10]⟩, .ok ⟨1, [20]⟩, .ok ⟨0, [30]⟩]

/-- C2: a produced row is the accumulator projected onto the full fixed column
list (hence always one slot per column, unfilled columns being `none` rather
than errors); and on the claim's own scenario — two one-column sensors `A`,
`B` with packet order `[A, B, A]` — the engine yields row 1 = {A-value,
B-value} (the second `A` packet going to the lookahead buffer), then row 2 =
{A-value, empty slot}, then ends. -/
theorem row_assembly_rows (config : RocketConfig) (buf : List Packet)
    (pkts : List PacketResult) (row : List (Option TypedValue))
    (buf' : List Packet) (pkts' : List PacketResult)
    (h : TableGenerator.next config buf pkts = (some (.ok row), buf', pkts')) :
    row.length = (TableGenerator.columns config).length ∧
      (TableGenerator.next abCfg [] abPkts =
          (some (.ok [some ⟨10, .uint8⟩, some ⟨20, .uint8⟩]),
            [⟨0, [30]⟩], []) ∧
        TableGenerator.next abCfg [⟨0, [30]⟩] [] =
          (some (.ok [some ⟨30, .uint8⟩, none]), [], []) ∧
        TableGenerator.next abCfg [] [] = (none, [], [])) := by
  refine ⟨?_, by rfl, by rfl, by rfl⟩
  unfold TableGenerator.next at h
  rcases htg : tgLoop config (buf.length + pkts.length + 1) [] buf pkts with
    ⟨out, nb, np⟩
  rw [htg] at h
  cases out with
  | error e => simp at h
  | ok acc =>
    by_cases hemp : acc.isEmpty
    · simp [hemp] at h
    · simp only [hemp, Bool.false_eq_true, if_false, Prod.mk.injEq,
        Option.some.injEq, Except.ok.injEq] at h
      rw [← h.1]
      simp

/-- Witness for C2: the first call of the [A, B, A] scenario instantiates the
hypothesis. -/
theorem row_assembly_rows_witness :
    TableGenerator.next abCfg [] abPkts =
        (some (.ok [some ⟨10, .uint8⟩, some ⟨20, .uint8⟩]), [⟨0, [30]⟩], []) ∧
      (([some (⟨10, .uint8⟩ : TypedValue), some ⟨20, .uint8⟩] :
          List (Option TypedValue)).length =
          (TableGenerator.columns abCfg).length ∧
        (TableGenerator.next abCfg [] abPkts =
            (some (.ok [some ⟨10, .uint8⟩, some ⟨20, .uint8⟩]),
              [⟨0, [30]⟩], []) ∧
          TableGenerator.next abCfg [⟨0, [30]⟩] [] =
            (some (.ok [some ⟨30, .uint8⟩, none]), [], []) ∧
          TableGenerator.next abCfg [] [] = (none, [], []))) :=
  ⟨by rfl, row_assembly_rows abCfg [] abPkts
    [some ⟨10, .uint8⟩, some ⟨20, .uint8⟩] [⟨0, [30]⟩] [] (by rfl)⟩

/-! ## C5: decoded packets always carry the configured value count -/

/-- A packet whose value count matches its sensor's configured count. -/
def countOk (config : RocketConfig) (p : Packet) : Prop :=
  ∀ sensor, config.get_sensor_by_id p.id = some sensor →
    p.values.length = sensor.values.length

theorem readValues_length (e : Endianess) (vcs : List ValueConfig) :
    ∀ bytes vs rest, readValues e vcs bytes = some (vs, rest) →
      vs.length = vcs.length := by
  induction vcs with
  | nil =>
    intro bytes vs rest h
    rw [readValues] at h
    simp only [Option.some.injEq, Prod.mk.injEq] at h
    rw [← h.1]
    rfl
  | cons vc vcs ih =>
    intro bytes vs rest h
    rw [readValues] at h
    split at h
    · cases h
    · split at h
      · cases h
      · rename_i v rest1 pr vs' rest' heq
        simp only [Option.some.injEq, Prod.mk.injEq] at h
        rw [← h.1]
        simp [ih _ _ _ heq]

/-- A successfully decoded packet's value count equals its sensor's configured
value count. -/
theorem parserNext_ok_spec (config : RocketConfig) (bytes : List Nat)
    (p : Packet) (rest : List Nat)
    (h : PacketParser.next config bytes = .ok p rest) :
    ∃ sensor, config.get_sensor_by_id p.id = some sensor ∧
      p.values.length = sensor.values.length := by
  cases bytes with
  | nil => rw [PacketParser.next] at h; cases h
  | cons id rest0 =>
    rw [PacketParser.next] at h
    split at h
    · cases h
    · rename_i sensor_config hs
      split at h
      · cases h
      · rename_i pr values rest' heq
        simp only [ParseStep.ok.injEq] at h
        rw [← h.1]
        exact ⟨sensor_config, hs, readValues_length _ _ _ _ _ heq⟩

/-- Only `InvalidId` errors ever come out of the parser. -/
theorem parserNext_fail_invalidId (config : RocketConfig) (bytes : List Nat)
    (e : PacketError) (rest : List Nat)
    (h : PacketParser.next config bytes = .fail e rest) :
    ∃ id, e = .invalidId id := by
  cases bytes with
  | nil => rw [PacketParser.next] at h; cases h
  | cons id rest0 =>
    rw [PacketParser.next] at h
    split at h
    · simp only [ParseStep.fail.injEq] at h
      exact ⟨id, h.1.symm⟩
    · split at h
      · cases h
      · cases h

/-- The whole stream of results the parser iterator yields on a byte stream
(the process dies at a panic, so the stream ends there too). -/
def parserRun (config : RocketConfig) : Nat → List Nat → List PacketResult
  | 0, _ => []
  | fuel + 1, bytes =>
    match PacketParser.next config bytes with
    | .eos => []
    | .panicked => []
    | .fail e rest => .error e :: parserRun config fuel rest
    | .ok p rest => .ok p :: parserRun config fuel rest

theorem parserRun_ok_countOk (config : RocketConfig) :
    ∀ fuel bytes p, Except.ok p ∈ parserRun config fuel bytes →
      countOk config p := by
  intro fuel
  induction fuel with
  | zero => intro bytes p hmem; simp [parserRun] at hmem
  | succ fuel ih =>
    intro bytes p hmem
    rw [parserRun] at hmem
    split at hmem
    · simp at hmem
    · simp at hmem
    · rcases List.mem_cons.mp hmem with hh | hh
      · cases hh
      · exact ih _ p hh
    · rename_i q rest heq
      rcases List.mem_cons.mp hmem with hh | hh
      · cases hh
        intro sensor hs
        obtain ⟨s0, hs0, hlen⟩ := parserNext_ok_spec config _ _ rest heq
        rw [hs0] at hs
        cases hs
        exact hlen
      · exact ih _ p hh

theorem parserRun_error_invalidId (config : RocketConfig) :
    ∀ fuel bytes e, Except.error e ∈ parserRun config fuel bytes →
      ∃ id, e = PacketError.invalidId id := by
  intro fuel
  induction fuel with
  | zero => intro bytes e hmem; simp [parserRun] at hmem
  | succ fuel ih =>
    intro bytes e hmem
    rw [parserRun] at hmem
    split at hmem
    · simp at hmem
    · simp at hmem
    · rename_i e0 rest heq
      rcases List.mem_cons.mp hmem with hh | hh
      · cases hh
        exact parserNext_fail_invalidId config _ _ rest heq
      · exact ih _ e hh
    · rcases List.mem_cons.mp hmem with hh | hh
      · cases hh
      · exact ih _ e hh

/-- The engine's `InvalidValueCount` check never fires when every drawn packet
has the configured value count and upstream errors are `InvalidId` only. -/
theorem tgLoop_no_invalid_count (config : RocketConfig) (fuel : Nat) :
    ∀ row buf pkts,
      (∀ p ∈ buf, countOk config p) →
      (∀ p, Except.ok p ∈ pkts → countOk config p) →
      (∀ e, Except.error e ∈ pkts → ∃ id, e = PacketError.invalidId id) →
      ∀ a b buf' pkts',
        tgLoop config fuel row buf pkts ≠
          (.error (.invalidValueCount a b), buf', pkts') := by
  induction fuel with
  | zero =>
    intro row buf pkts _ _ _ a b buf' pkts' hcontra
    rw [tgLoop] at hcontra
    simp at hcontra
  | succ fuel ih =>
    intro row buf pkts hbuf hok herr a b buf' pkts' hcontra
    cases buf with
    | cons p bufTail =>
      simp only [tgLoop, nextPacket] at hcontra
      cases hs : config.get_sensor_by_id p.id with
      | none => simp only [hs] at hcontra; simp at hcontra
      | some sensor =>
        simp only [hs] at hcontra
        have hcnt : p.values.length = sensor.values.length :=
          hbuf p (by simp) sensor hs
        rw [if_neg (by simp [hcnt])] at hcontra
        by_cases hany : sensor.values.any (fun spec =>
            (row.lookup (TableGenerator.column_name sensor spec)).isSome)
        · rw [if_pos hany] at hcontra; simp at hcontra
        · rw [if_neg hany] at hcontra
          exact ih _ bufTail pkts (fun q hq => hbuf q (by simp [hq])) hok
            herr a b buf' pkts' hcontra
    | nil =>
      cases pkts with
      | nil => simp [tgLoop, nextPacket] at hcontra
      | cons r pkts2 =>
        cases r with
        | error e =>
          simp only [tgLoop, nextPacket] at hcontra
          obtain ⟨id, hid⟩ := herr e (by simp)
          subst hid
          simp at hcontra
        | ok p =>
          simp only [tgLoop, nextPacket] at hcontra
          cases hs : config.get_sensor_by_id p.id with
          | none => simp only [hs] at hcontra; simp at hcontra
          | some sensor =>
            simp only [hs] at hcontra
            have hcnt : p.values.length = sensor.values.length :=
              hok p (by simp) sensor hs
            rw [if_neg (by simp [hcnt])] at hcontra
            by_cases hany : sensor.values.any (fun spec =>
                (row.lookup (TableGenerator.column_name sensor spec)).isSome)
            · rw [if_pos hany] at hcontra; simp at hcontra
            · rw [if_neg hany] at hcontra
              exact ih _ [] pkts2 (by simp)
                (fun q hq => hok q (by simp [hq]))
                (fun e0 he => herr e0 (by simp [he])) a b buf' pkts' hcontra

/-- C5: every successfully decoded packet carries exactly its sensor's
configured value count, and consequently the row engine fed by the parser's
output under the same configuration can never produce an
`InvalidValueCount` error. -/
theorem decoded_packet_value_count (config : RocketConfig) (bytes : List Nat)
    (p : Packet) (rest : List Nat)
    (h : PacketParser.next config bytes = .ok p rest) :
    (∃ sensor, config.get_sensor_by_id p.id = some sensor ∧
        p.values.length = sensor.values.length) ∧
      ∀ pfuel tfuel row a b buf' pkts',
        tgLoop config tfuel row [] (parserRun config pfuel bytes) ≠
          (.error (.invalidValueCount a b), buf', pkts') := by
  refine ⟨parserNext_ok_spec config bytes p rest h, ?_⟩
  intro pfuel tfuel row a b buf' pkts'
  exact tgLoop_no_invalid_count config tfuel row [] _ (by simp)
    (fun q hq => parserRun_ok_countOk config pfuel bytes q hq)
    (fun e he => parserRun_error_invalidId config pfuel bytes e he)
    a b buf' pkts'

/-- Witness for C5: decoding `[1, 0, 0, 0, 0]` under the one-float32-sensor
configuration yields the packet with one value. -/
theorem decoded_packet_value_count_witness :
    PacketParser.next truncCfg [1, 0, 0, 0, 0] = .ok ⟨1, [0]⟩ [] ∧
      ((∃ sensor,
          truncCfg.get_sensor_by_id (Packet.mk 1 [0]).id = some sensor ∧
            (Packet.mk 1 [0]).values.length = sensor.values.length) ∧
        ∀ pfuel tfuel row a b buf' pkts',
          tgLoop truncCfg tfuel row []
              (parserRun truncCfg pfuel [1, 0, 0, 0, 0]) ≠
            (.error (.invalidValueCount a b), buf', pkts')) :=
  ⟨by rfl, decoded_packet_value_count truncCfg [1, 0, 0, 0, 0] ⟨1, [0]⟩ []
    (by rfl)⟩

/-! ## The CSV generator (`csv.rs`)

`CsvGenerator` duplicates the row-assembly loop of `TableGenerator` but
accumulates already-rendered strings, and its `next` yields the header line
first (`is_first`), then one rendered line per row.  Every character the
rendering writes into a line is single-byte ASCII (decimal digits, `-`, `.`,
`,`, and the letters of `inf`/`NaN`), so the source's byte slice
`result[0..result.len() - 1]` is the same as dropping the last character. -/

/-- `result[0..result.len() - 1].to_string()` (`csv.rs` line 119). -/
def stripLast (s : String) : String := ⟨s.data.dropLast⟩

/-- Rust `Vec<String>::join(",")` (`csv.rs` line 68). -/
def joinComma (parts : List String) : String :=
  match parts with
  | [] => ""
  | p :: ps => ps.foldl (fun acc q => acc ++ "," ++ q) p

/-- The insertion loop of `CsvGenerator::next` (`csv.rs` lines 99-103):
render each value with `Value::to_string` under its declared kind and insert
it under its column name. -/
def insertPacketStr (sensor : SensorConfig) (p : Packet)
    (row : List (String × String)) : List (String × String) :=
  (sensor.values.zip p.values).foldl
    (fun r sv =>
      (CsvGenerator.column_name sensor sv.1,
        Value.to_string sv.2 sv.1.data_type) :: r)
    row

/-- The `'packet_loop` of `CsvGenerator::next` (`csv.rs` lines 73-104), the
same drawing discipline as the table generator's. -/
def csvLoop (config : RocketConfig) :
    Nat → List (String × String) → List Packet → List PacketResult →
      Except PacketError (List (String × String)) ×
        List Packet × List PacketResult
  | 0, row, buf, pkts => (.ok row, buf, pkts)
  | fuel + 1, row, buf, pkts =>
    match nextPacket buf pkts with
    | none => (.ok row, buf, pkts)
    | some (.error e, buf', pkts') => (.error e, buf', pkts')
    | some (.ok p, buf', pkts') =>
      match config.get_sensor_by_id p.id with
      | none => (.error (.invalidId p.id), buf', pkts')
      | some sensor =>
        if p.values.length ≠ sensor.values.length then
          (.error (.invalidValueCount p.values.length sensor.values.length),
            buf', pkts')
        else if sensor.values.any (fun spec =>
            (row.lookup (CsvGenerator.column_name sensor spec)).isSome) then
          (.ok row, buf' ++ [p], pkts')
        else
          csvLoop config fuel (insertPacketStr sensor p row) buf' pkts'

/-- The rendering loop of `CsvGenerator::next` (`csv.rs` lines 110-117):
write `"{value},"` per filled column and `","` per empty one. -/
def csvBuild (config : RocketConfig) (row : List (String × String)) : String :=
  (CsvGenerator.columns config).foldl (fun result column =>
    match row.lookup column with
    | some value => result ++ value ++ ","
    | none => result ++ ",") ""

/-- `<CsvGenerator as Iterator>::next` (`csv.rs` lines 65-120). -/
def CsvGenerator.next (config : RocketConfig) (is_first : Bool)
    (buf : List Packet) (pkts : List PacketResult) :
    Option (Except PacketError String) ×
      Bool × List Packet × List PacketResult :=
  if is_first then
    (some (.ok (joinComma (CsvGenerator.columns config))), false, buf, pkts)
  else
    match csvLoop config (buf.length + pkts.length + 1) [] buf pkts with
    | (.error e, buf', pkts') => (some (.error e), false, buf', pkts')
    | (.ok row, buf', pkts') =>
      if row.isEmpty then (none, false, buf', pkts')
      else (some (.ok (stripLast (csvBuild config row))), false, buf', pkts')

theorem csvBuild_foldl_data (row : List (String × String))
    (columns : List String) (acc : String) :
    (columns.foldl (fun result column =>
      match row.lookup column with
      | some value => result ++ value ++ ","
      | none => result ++ ",") acc).data =
    acc.data ++
      (columns.map
        (fun c => ((row.lookup c).getD "").data ++ [','])).flatten := by
  induction columns generalizing acc with
  | nil => simp
  | cons c cs ih =>
    rw [List.foldl_cons, List.map_cons, List.flatten_cons]
    cases hl : row.lookup c with
    | none => simp [ih, hl]
    | some v => simp [ih, hl, List.append_assoc]

theorem joinComma_data (p : String) (ps : List String) :
    (joinComma (p :: ps)).data =
      p.data ++ (ps.map (fun q => ',' :: q.data)).flatten := by
  induction ps generalizing p with
  | nil => simp [joinComma]
  | cons q qs ih =>
    have hstep : joinComma (p :: q :: qs) = joinComma ((p ++ "," ++ q) :: qs) :=
      rfl
    rw [hstep, ih]
    simp [List.append_assoc]

theorem flatten_cells_dropLast (cells : List String) (hne : cells ≠ []) :
    ((cells.map (fun c => c.data ++ [','])).flatten).dropLast =
      (joinComma cells).data := by
  induction cells with
  | nil => exact absurd rfl hne
  | cons c cs ih =>
    cases cs with
    | nil => simp [joinComma]
    | cons q qs =>
      have hrest :
          (((q :: qs).map (fun t => t.data ++ [','])).flatten) ≠ [] := by
        simp
      rw [List.map_cons, List.flatten_cons,
        List.dropLast_append_of_ne_nil _ hrest, ih (by simp),
        joinComma_data c (q :: qs), joinComma_data q qs]
      simp [List.append_assoc]

theorem flatten_comma_count (parts : List String)
    (hcf : ∀ c ∈ parts, ',' ∉ c.data) :
    (((parts.map (fun q => ',' :: q.data)).flatten).count ',') =
      parts.length := by
  induction parts with
  | nil => simp
  | cons q qs ih =>
    rw [List.map_cons, List.flatten_cons, List.count_append,
      List.count_cons_self,
      List.count_eq_zero_of_not_mem (hcf q (by simp)),
      ih (fun t ht => hcf t (by simp [ht]))]
    simp [List.length_cons]
    omega

theorem joinComma_count (cells : List String)
    (hne : cells ≠ []) (hcf : ∀ c ∈ cells, ',' ∉ c.data) :
    ((joinComma cells).data.count ',') = cells.length - 1 := by
  cases cells with
  | nil => exact absurd rfl hne
  | cons c cs =>
    rw [joinComma_data, List.count_append,
      List.count_eq_zero_of_not_mem (hcf c (by simp)),
      flatten_comma_count cs (fun t ht => hcf t (by simp [ht]))]
    simp

/-! ### No rendered value contains a comma -/

theorem digitChar_ne_comma (d : Nat) : digitChar d ≠ ',' := by
  have h : d % 10 < 10 := Nat.mod_lt _ (by norm_num)
  unfold digitChar
  set r := d % 10 with hr
  interval_cases r <;> decide

theorem natDigitsAux_comma_free (fuel : Nat) :
    ∀ n, ',' ∉ natDigitsAux fuel n := by
  induction fuel with
  | zero => intro n; simp [natDigitsAux]
  | succ fuel ih =>
    intro n
    rw [natDigitsAux]
    split
    · intro hmem
      exact digitChar_ne_comma n ((List.mem_singleton.mp hmem).symm)
    · intro hmem
      rcases List.mem_append.mp hmem with h | h
      · exact ih _ h
      · exact digitChar_ne_comma _ ((List.mem_singleton.mp h).symm)

theorem natRepr_comma_free (n : Nat) : ',' ∉ (natRepr n).data :=
  natDigitsAux_comma_free _ n

theorem intRepr_comma_free (i : Int) : ',' ∉ (intRepr i).data := by
  unfold intRepr
  split
  · intro hmem
    rw [String.data_append] at hmem
    rcases List.mem_append.mp hmem with h | h
    · exact absurd h (by decide)
    · exact natRepr_comma_free _ h
  · exact natRepr_comma_free _

theorem pad8_comma_free (k : Nat) : ',' ∉ (pad8 k).data := by
  unfold pad8
  intro hmem
  rcases List.mem_append.mp hmem with h | h
  · exact absurd (List.eq_of_mem_replicate h) (by decide)
  · exact natDigitsAux_comma_free _ _ h

theorem formatFloatFixed8_comma_free (eb fb bias bits : Nat) :
    ',' ∉ (formatFloatFixed8 eb fb bias bits).data := by
  unfold formatFloatFixed8
  dsimp only
  split
  · split
    · split <;> decide
    · decide
  · intro hmem
    simp only [String.data_append] at hmem
    rcases List.mem_append.mp hmem with h1 | h1
    · rcases List.mem_append.mp h1 with h2 | h2
      · rcases List.mem_append.mp h2 with h3 | h3
        · revert h3
          split <;> decide
        · exact natRepr_comma_free _ h3
      · exact absurd h2 (by decide)
    · exact pad8_comma_free _ h1

theorem valueToString_comma_free (v : Value) (k : ValueKind) :
    ',' ∉ (Value.to_string v k).data := by
  cases k <;>
    simp only [Value.to_string] <;>
    first
      | exact intRepr_comma_free _
      | exact natRepr_comma_free _
      | exact formatFloatFixed8_comma_free _ _ _ _

/-! ### The CSV accumulator only ever holds rendered values under known
columns -/

/-- An accumulator entry is keyed by a configured column and holds a rendered
value. -/
def goodCell (config : RocketConfig) (kv : String × String) : Prop :=
  kv.1 ∈ CsvGenerator.columns config ∧
    ∃ v k, kv.2 = Value.to_string v k

theorem mem_foldl_cons {α β : Type} (f : α → β) :
    ∀ (xs : List α) (acc : List β) (b : β),
      b ∈ xs.foldl (fun r x => f x :: r) acc →
        b ∈ acc ∨ ∃ x ∈ xs, b = f x := by
  intro xs
  induction xs with
  | nil => intro acc b h; exact Or.inl h
  | cons x xs ih =>
    intro acc b h
    rw [List.foldl_cons] at h
    rcases ih _ b h with h2 | h2
    · rcases List.mem_cons.mp h2 with h3 | h3
      · exact Or.inr ⟨x, by simp, h3⟩
      · exact Or.inl h3
    · obtain ⟨y, hy, hb⟩ := h2
      exact Or.inr ⟨y, by simp [hy], hb⟩

theorem lookup_mem {l : List (String × String)} {a b : String}
    (h : l.lookup a = some b) : (a, b) ∈ l := by
  induction l with
  | nil => simp [List.lookup] at h
  | cons kv l ih =>
    rw [List.lookup] at h
    cases hb : a == kv.1 with
    | true =>
      rw [hb] at h
      simp only [Option.some.injEq] at h
      have ha : a = kv.1 := eq_of_beq hb
      rw [ha, ← h]
      exact List.mem_cons_self _ _
    | false =>
      rw [hb] at h
      exact List.mem_cons_of_mem _ (ih h)

theorem insertPacketStr_good (config : RocketConfig) (sensor : SensorConfig)
    (hsensor : sensor ∈ config.sensors) (p : Packet)
    (row : List (String × String))
    (hrow : ∀ kv ∈ row, goodCell config kv) :
    ∀ kv ∈ insertPacketStr sensor p row, goodCell config kv := by
  intro kv hkv
  rcases mem_foldl_cons _ _ _ _ hkv with h | ⟨sv, hsv, hkveq⟩
  · exact hrow kv h
  · subst hkveq
    constructor
    · have hspec : sv.1 ∈ sensor.values := (List.of_mem_zip hsv).1
      rw [csvColumns_eq_flatMap]
      exact List.mem_flatMap.mpr
        ⟨sensor, hsensor, List.mem_map.mpr ⟨sv.1, hspec, rfl⟩⟩
    · exact ⟨sv.2, sv.1.data_type, rfl⟩

theorem csvLoop_good (config : RocketConfig) (fuel : Nat) :
    ∀ row buf pkts row' buf' pkts',
      (∀ kv ∈ row, goodCell config kv) →
      csvLoop config fuel row buf pkts = (.ok row', buf', pkts') →
      ∀ kv ∈ row', goodCell config kv := by
  induction fuel with
  | zero =>
    intro row buf pkts row' buf' pkts' hrow h
    rw [csvLoop] at h
    simp only [Prod.mk.injEq, Except.ok.injEq] at h
    obtain ⟨hr, -, -⟩ := h
    subst hr
    exact hrow
  | succ fuel ih =>
    intro row buf pkts row' buf' pkts' hrow h
    cases buf with
    | cons p bufTail =>
      simp only [csvLoop, nextPacket] at h
      cases hs : config.get_sensor_by_id p.id with
      | none => simp only [hs] at h; simp at h
      | some sensor =>
        simp only [hs] at h
        split_ifs at h with h1 h2
        · simp at h
        · simp only [Prod.mk.injEq, Except.ok.injEq] at h
          obtain ⟨hr, -, -⟩ := h
          subst hr
          exact hrow
        · exact ih _ bufTail pkts row' buf' pkts'
            (insertPacketStr_good config sensor
              (List.mem_of_find?_eq_some hs) p row hrow) h
    | nil =>
      cases pkts with
      | nil =>
        simp only [csvLoop, nextPacket] at h
        simp only [Prod.mk.injEq, Except.ok.injEq] at h
        obtain ⟨hr, -, -⟩ := h
        subst hr
        exact hrow
      | cons r pkts2 =>
        cases r with
        | error e => simp only [csvLoop, nextPacket] at h; simp at h
        | ok p =>
          simp only [csvLoop, nextPacket] at h
          cases hs : config.get_sensor_by_id p.id with
          | none => simp only [hs] at h; simp at h
          | some sensor =>
            simp only [hs] at h
            split_ifs at h with h1 h2
            · simp at h
            · simp only [Prod.mk.injEq, Except.ok.injEq] at h
              obtain ⟨hr, -, -⟩ := h
              subst hr
              exact hrow
            · exact ih _ [] pkts2 row' buf' pkts'
                (insertPacketStr_good config sensor
                  (List.mem_of_find?_eq_some hs) p row hrow) h

/-- C10: the CSV generator's first produced line is the column names joined
by `,`; every subsequent produced line is the row's slots — each a value
rendered by the `Value::to_string` rule (integers plain decimal, floats fixed
eight decimals: witnessed concretely by the two rendering equations) or an
empty field for an empty slot — joined by `,`, so a line over `N` columns
contains exactly `N − 1` comma separators regardless of sparsity. -/
theorem csv_line_shape (config : RocketConfig) (buf : List Packet)
    (pkts : List PacketResult) (line : String)
    (st : Bool × List Packet × List PacketResult)
    (h : CsvGenerator.next config false buf pkts = (some (.ok line), st)) :
    (∀ cfg (b : List Packet) (q : List PacketResult),
        (CsvGenerator.next cfg true b q).1 =
          some (.ok (joinComma (CsvGenerator.columns cfg)))) ∧
      (∃ row : List (String × String),
        (∀ kv ∈ row, ∃ v k, kv.2 = Value.to_string v k) ∧
        line = joinComma ((CsvGenerator.columns config).map
          (fun c => ((row.lookup c).getD ""))) ∧
        (line.data.count ',') = (CsvGenerator.columns config).length - 1) ∧
      Value.to_string 1 .int32 = "1" ∧
      Value.to_string 1065353216 .float32 = "1.00000000" := by
  refine ⟨fun cfg b q => by simp [CsvGenerator.next], ?_, by decide, by decide⟩
  unfold CsvGenerator.next at h
  rw [if_neg (by simp)] at h
  rcases hcl : csvLoop config (buf.length + pkts.length + 1) [] buf pkts with
    ⟨out, nb, np⟩
  rw [hcl] at h
  cases out with
  | error e => simp at h
  | ok row =>
    by_cases hemp : row.isEmpty
    · simp [hemp] at h
    · simp only [hemp, Bool.false_eq_true, if_false, Prod.mk.injEq,
        Option.some.injEq, Except.ok.injEq] at h
      obtain ⟨hline, -⟩ := h
      have hgood : ∀ kv ∈ row, goodCell config kv :=
        csvLoop_good config _ [] buf pkts row nb np (by simp) hcl
      have hrowne : row ≠ [] := by
        intro hr
        rw [hr] at hemp
        simp at hemp
      obtain ⟨kv0, hkv0⟩ := List.exists_mem_of_ne_nil row hrowne
      have hcolne : CsvGenerator.columns config ≠ [] := by
        intro hc
        have hmem := (hgood kv0 hkv0).1
        rw [hc] at hmem
        simp at hmem
      set cells := (CsvGenerator.columns config).map
        (fun c => ((row.lookup c).getD "")) with hcells
      have hcellsne : cells ≠ [] := by
        simp only [hcells, ne_eq, List.map_eq_nil_iff]
        exact hcolne
      have hcf : ∀ c ∈ cells, ',' ∉ c.data := by
        intro c hc
        rw [hcells] at hc
        obtain ⟨col, -, hceq⟩ := List.mem_map.mp hc
        cases hl : row.lookup col with
        | none =>
          rw [hl] at hceq
          simp only [Option.getD_none] at hceq
          rw [← hceq]
          decide
        | some s =>
          rw [hl] at hceq
          simp only [Option.getD_some] at hceq
          obtain ⟨v, k, hvk⟩ := (hgood (col, s) (lookup_mem hl)).2
          have hvk' : s = Value.to_string v k := hvk
          rw [← hceq, hvk']
          exact valueToString_comma_free v k
      have hbuild : (csvBuild config row).data =
          (cells.map (fun c => c.data ++ [','])).flatten := by
        rw [csvBuild, csvBuild_foldl_data, hcells, List.map_map]
        rfl
      have hline2 : line = joinComma cells := by
        rw [← hline]
        refine String.ext ?_
        show (csvBuild config row).data.dropLast = (joinComma cells).data
        rw [hbuild, flatten_cells_dropLast cells hcellsne]
      refine ⟨row, fun kv hkv => (hgood kv hkv).2, by rw [hline2, hcells], ?_⟩
      rw [hline2, joinComma_count cells hcellsne hcf]
      simp [hcells]

/-- Witness for C10: the second `next` call of the [A, B, A] scenario
produces the line `"10,20"`. -/
theorem csv_line_shape_witness :
    CsvGenerator.next abCfg false [] abPkts =
        (some (.ok "10,20"), false, [⟨0, [30]⟩], []) ∧
      ((∀ cfg (b : List Packet) (q : List PacketResult),
          (CsvGenerator.next cfg true b q).1 =
            some (.ok (joinComma (CsvGenerator.columns cfg)))) ∧
        (∃ row : List (String × String),
          (∀ kv ∈ row, ∃ v k, kv.2 = Value.to_string v k) ∧
          "10,20" = joinComma ((CsvGenerator.columns abCfg).map
            (fun c => ((row.lookup c).getD ""))) ∧
          (("10,20" : String).data.count ',') =
            (CsvGenerator.columns abCfg).length - 1) ∧
        Value.to_string 1 .int32 = "1" ∧
        Value.to_string 1065353216 .float32 = "1.00000000") :=
  ⟨by rfl, csv_line_shape abCfg [] abPkts "10,20"
    (false, [⟨0, [30]⟩], []) (by rfl)⟩

end FlightData
